/-
  Verification of the `BatchCache` subsystem of spacy-llm
  (src/spacy_llm/cache.py) against its natural-language specification.

  The embedding below translates `BatchCache` into Lean: Python dicts
  become insertion-ordered association lists over `Nat` keys (Python's
  `dict` preserves insertion order and overwrites in place on key reuse),
  `numpy.uint64` arithmetic becomes `Nat` arithmetic modulo 2^64, the
  filesystem becomes an explicit `Disk` value threaded through the
  operations, and raised exceptions become `Except` results.  Each
  operation additionally returns the list of filesystem events it
  performed, so that ordering and absence of I/O can be stated.
-/
import Mathlib

set_option autoImplicit false

namespace SpacyLLM

/-- 2^64, the modulus of `numpy.uint64` arithmetic used by the fingerprint
functions in cache.py. -/
def UINT64 : Nat := 18446744073709551616

theorem uint64_eq : UINT64 = 2 ^ 64 := by decide

/-! ### Association lists modelling Python dicts -/

/-- Lookup in an insertion-ordered association list (`d.get(k)` /
`k in d` on a Python dict). -/
def lookupA {α : Type} : List (Nat × α) → Nat → Option α
  | [], _ => none
  | (k, v) :: rest, key => if k = key then some v else lookupA rest key

/-- `d[k] = v` on a Python dict: overwrite in place if the key is present,
otherwise append at the end (Python dicts preserve insertion order). -/
def updateA {α : Type} : List (Nat × α) → Nat → α → List (Nat × α)
  | [], k, v => [(k, v)]
  | (k', v') :: rest, k, v =>
    if k' = k then (k, v) :: rest else (k', v') :: updateA rest k v

/-- `d.pop(k)` on a Python dict (dropping the returned value). -/
def removeA {α : Type} : List (Nat × α) → Nat → List (Nat × α)
  | [], _ => []
  | (k', v') :: rest, k =>
    if k' = k then rest else (k', v') :: removeA rest k

@[simp] theorem lookupA_nil {α : Type} (k : Nat) :
    lookupA ([] : List (Nat × α)) k = none := rfl

@[simp] theorem lookupA_cons {α : Type} (k' : Nat) (v' : α)
    (rest : List (Nat × α)) (k : Nat) :
    lookupA ((k', v') :: rest) k =
      if k' = k then some v' else lookupA rest k := rfl

theorem lookupA_updateA_self {α : Type} (m : List (Nat × α)) (k : Nat) (v : α) :
    lookupA (updateA m k v) k = some v := by
  induction m with
  | nil => simp [updateA, lookupA]
  | cons p rest ih =>
    obtain ⟨k', v'⟩ := p
    by_cases h : k' = k
    · simp [updateA, h, lookupA]
    · simp [updateA, h, lookupA, ih]

theorem lookupA_updateA_ne {α : Type} (m : List (Nat × α)) (k k' : Nat) (v : α)
    (h : k ≠ k') : lookupA (updateA m k v) k' = lookupA m k' := by
  induction m with
  | nil => simp [updateA, lookupA, h]
  | cons p rest ih =>
    obtain ⟨k₀, v₀⟩ := p
    by_cases h0 : k₀ = k
    · subst h0
      simp [updateA, lookupA, h]
    · simp [updateA, h0, lookupA, ih]

/-- A key is absent from an association list iff it is not among the keys. -/
theorem lookupA_eq_none_iff {α : Type} (m : List (Nat × α)) (k : Nat) :
    lookupA m k = none ↔ k ∉ m.map Prod.fst := by
  induction m with
  | nil => simp
  | cons p rest ih =>
    obtain ⟨k', v'⟩ := p
    by_cases h : k' = k
    · simp [lookupA, h]
    · simp [lookupA, h, ih, Ne.symm h]

/-- Updating at a fresh key appends the key at the end of the key order. -/
theorem map_fst_updateA_fresh {α : Type} (m : List (Nat × α)) (k : Nat) (v : α)
    (h : lookupA m k = none) :
    (updateA m k v).map Prod.fst = m.map Prod.fst ++ [k] := by
  induction m with
  | nil => simp [updateA]
  | cons p rest ih =>
    obtain ⟨k', v'⟩ := p
    by_cases h0 : k' = k
    · simp [lookupA, h0] at h
    · simp [lookupA, h0] at h
      simp [updateA, h0, ih h]

@[simp] theorem removeA_head {α : Type} (k : Nat) (v : α)
    (rest : List (Nat × α)) : removeA ((k, v) :: rest) k = rest := by
  simp [removeA]

/-! ### Data model -/

/-- A spaCy `Doc`, reduced to what the cache observes of it: the array of
token `ORTH` ids (`doc.to_array(["ORTH"])`), each a `numpy.uint64` value. -/
structure Doc where
  orth : List Nat
deriving DecidableEq

/-- The `_stats` dictionary of `BatchCache.__init__` (cache.py lines 56-63). -/
structure Stats where
  hit : Nat
  hit_contains : Nat
  missed : Nat
  missed_contains : Nat
  added : Nat
  persisted : Nat
deriving DecidableEq

/-- The all-zero statistics a fresh `BatchCache` starts with. -/
def Stats.zero : Stats := ⟨0, 0, 0, 0, 0, 0⟩

/-- Filesystem events a cache operation can perform. -/
inductive FsEvent where
  /-- `DocBin(...).to_disk(batch_path)`: writing one batch artifact
  (cache.py line 156). -/
  | writeBatch (batchId : Nat)
  /-- One record appended to `index.jsonl` by `srsly.write_jsonl(...,
  append=True)` (cache.py lines 157-162). -/
  | appendIndex (docId : Nat) (batchId : Nat)
  /-- `DocBin().from_disk(batch_path)`: reading one batch artifact
  (cache.py lines 213-214). -/
  | readBatch (batchId : Nat)
deriving DecidableEq

/-- Exceptions the cache operations can raise. -/
inductive CacheErr where
  /-- `ValueError("Cache directory path was not configured. ...")`
  (cache.py lines 196-198). -/
  | noPath
  /-- `ValueError("Vocab must be set in order to Cache.__get_item__() to
  work.")` (cache.py lines 200-202). -/
  | noVocab
  /-- `IndexError` from `self._batch_hashes[0]` when the load-order list is
  empty at eviction time (cache.py line 206). -/
  | evictEmpty
  /-- `FileNotFoundError` from `DocBin().from_disk` when the batch artifact
  is missing (cache.py lines 213-214). -/
  | batchFileMissing
  /-- `KeyError` from `self._loaded_docs[batch_id][doc_id]` when the loaded
  batch does not contain the requested doc (cache.py line 218). -/
  | docNotInBatch
deriving DecidableEq

/-- The cache directory on disk: the batch artifacts (`<batch_id>.spacy`,
keyed by batch id) and the `index.jsonl` file, a sequence of appended
records, each record a JSON object read as key-value pairs. -/
structure Disk where
  batches : List (Nat × List Doc)
  index : List (List (Nat × Nat))
deriving DecidableEq

/-- A disk holding an empty cache directory. -/
def Disk.empty : Disk := ⟨[], []⟩

/-- The in-memory state of a `BatchCache` instance (cache.py lines 28-65).
`path` records whether a cache directory was configured (`self._path is not
None`); `vocab` whether the deserialization vocab has been set. -/
structure BatchCache where
  path : Bool
  batch_size : Nat
  max_batches_in_mem : Nat
  vocab : Bool
  /-- `self._doc2batch`: doc hash -> batch hash. -/
  doc2batch : List (Nat × Nat)
  /-- `self._batch_hashes`: hashes of batches loaded into memory, in load
  order. -/
  batch_hashes : List Nat
  /-- `self._loaded_docs`: batch hash -> (doc hash -> Doc). -/
  loaded_docs : List (Nat × List (Nat × Doc))
  /-- `self._cache_queue`: processed, not yet persisted docs. -/
  cache_queue : List Doc
  stats : Stats
deriving DecidableEq

/-! ### Fingerprints -/

/-- `BatchCache._doc_id` (cache.py lines 114-120):
`numpy.sum(doc.to_array(["ORTH"]), dtype=numpy.uint64)` — each ORTH value
is taken as a uint64 and the sum wraps around modulo 2^64. -/
def _doc_id (doc : Doc) : Nat :=
  (doc.orth.map (· % UINT64)).foldl (fun a x => (a + x) % UINT64) 0

/-- `BatchCache._batch_id` (cache.py lines 122-130):
`numpy.sum(numpy.asarray(doc_ids, dtype=numpy.uint64), dtype=numpy.uint64)`
— the doc ids are cast to uint64 and summed with wraparound. -/
def _batch_id (doc_ids : List Nat) : Nat :=
  (doc_ids.map (· % UINT64)).foldl (fun a x => (a + x) % UINT64) 0

/-! ### Construction -/

/-- `BatchCache._init_cache_index` (cache.py lines 81-96), restricted to the
index merge: starting from the empty `_doc2batch`, each record of
`index.jsonl` is merged in file order with
`self._doc2batch = {**self._doc2batch, **{int(k): int(v) for k, v in
rec.items()}}`, so entries of later records overwrite earlier ones. -/
def _init_cache_index (records : List (List (Nat × Nat))) : List (Nat × Nat) :=
  records.foldl
    (fun m rec => rec.foldl (fun m' kv => updateA m' kv.1 kv.2) m) []

/-- `BatchCache.__init__` (cache.py lines 28-65): all containers start
empty, the statistics start at zero, no vocab is set, and — when a path is
configured — the existing index file is replayed into `doc2batch`. -/
def BatchCache.init (path : Bool) (batch_size max_batches_in_mem : Nat)
    (disk : Disk) : BatchCache :=
  { path := path
    batch_size := batch_size
    max_batches_in_mem := max_batches_in_mem
    vocab := false
    doc2batch := if path then _init_cache_index disk.index else []
    batch_hashes := []
    loaded_docs := []
    cache_queue := []
    stats := Stats.zero }

/-! ### Persisting -/

/-- `BatchCache._persist` (cache.py lines 145-164) under normal execution
(the batch artifact write succeeds): compute the doc ids and the batch id,
point every member's `doc2batch` entry at the new batch, write the batch
artifact, append one index record per member, bump `persisted`, clear the
queue.  The returned event list records the I/O in program order. -/
def _persist (c : BatchCache) (disk : Disk) :
    BatchCache × Disk × List FsEvent :=
  let doc_ids := c.cache_queue.map _doc_id
  let bid := _batch_id doc_ids
  ({ c with
      doc2batch := doc_ids.foldl (fun m i => updateA m i bid) c.doc2batch
      cache_queue := []
      stats := { c.stats with
                  persisted := c.stats.persisted + c.cache_queue.length } },
   { batches := updateA disk.batches bid c.cache_queue
     index := disk.index ++ doc_ids.map (fun i => [(i, bid)]) },
   FsEvent.writeBatch bid :: doc_ids.map (fun i => FsEvent.appendIndex i bid))

/-- The I/O trace of `BatchCache._persist` when `DocBin(...).to_disk`
(cache.py line 156) raises: the exception propagates, so the
`srsly.write_jsonl` append on lines 157-162 is never reached — the write
of the batch artifact was attempted and nothing else happened. -/
def _persistFailureTrace (q : List Doc) : List FsEvent :=
  [FsEvent.writeBatch (_batch_id (q.map _doc_id))]

/-- `BatchCache.add` (cache.py lines 132-143): return immediately when no
path is configured; otherwise append to the queue, bump `added`, and
persist synchronously when the queue length equals `batch_size`. -/
def BatchCache.add (c : BatchCache) (disk : Disk) (doc : Doc) :
    BatchCache × Disk × List FsEvent :=
  if c.path = false then (c, disk, [])
  else
    let c' := { c with
                 cache_queue := c.cache_queue ++ [doc]
                 stats := { c.stats with added := c.stats.added + 1 } }
    if c'.cache_queue.length = c'.batch_size then _persist c' disk
    else (c', disk, [])

/-- Folding `BatchCache.add` over a list of docs (the caller adding
processed docs one at a time). -/
def addMany (c : BatchCache) (disk : Disk) : List Doc → BatchCache × Disk
  | [] => (c, disk)
  | d :: ds =>
    let r := BatchCache.add c disk d
    addMany r.1 r.2.1 ds

/-! ### Lookup -/

/-- `BatchCache.__contains__` (cache.py lines 166-175): membership of the
doc's fingerprint in `doc2batch`, with the matching statistic bumped. -/
def BatchCache.contains (c : BatchCache) (doc : Doc) : Bool × BatchCache :=
  if lookupA c.doc2batch (_doc_id doc) = none then
    (false, { c with stats := { c.stats with
                missed_contains := c.stats.missed_contains + 1 } })
  else
    (true, { c with stats := { c.stats with
                hit_contains := c.stats.hit_contains + 1 } })

/-- The dict comprehension of cache.py lines 211-216: index the docs of a
loaded batch by their fingerprint (later docs overwrite earlier ones on a
fingerprint collision, as in a Python dict comprehension). -/
def mkDocDict (docs : List Doc) : List (Nat × Doc) :=
  docs.foldl (fun m pd => updateA m (_doc_id pd) pd) []

/-- The eviction step of `BatchCache.__getitem__` (cache.py lines 204-207):
if the number of loaded batches equals `max_batches_in_mem`, pop the batch
at the front of the load-order list.  `none` models the `IndexError` that
`self._batch_hashes[0]` raises when the list is empty. -/
def evictOldest (c : BatchCache) : Option BatchCache :=
  if c.loaded_docs.length = c.max_batches_in_mem then
    match c.batch_hashes with
    | [] => none
    | h :: t =>
      some { c with loaded_docs := removeA c.loaded_docs h, batch_hashes := t }
  else some c

/-- `BatchCache.__getitem__` (cache.py lines 177-218).  Note the guard on
line 188 is `if not batch_id:` — Python truthiness — which is taken both
when the fingerprint is absent (`None`) and when the stored batch id is the
integer `0`; the embedding reproduces this with the `bid = 0` test.  On the
load path the code appends to `batch_hashes` (line 210) before reading the
artifact (lines 211-216), so a missing artifact leaves the appended hash
behind; the final `self._loaded_docs[batch_id][doc_id]` (line 218) looks up
the dict just stored, i.e. `mkDocDict bdocs`. -/
def BatchCache.getitem (c : BatchCache) (disk : Disk) (doc : Doc) :
    Except CacheErr (Option Doc) × BatchCache × List FsEvent :=
  let did := _doc_id doc
  match lookupA c.doc2batch did with
  | none =>
    (Except.ok none,
     { c with stats := { c.stats with missed := c.stats.missed + 1 } }, [])
  | some bid =>
    if bid = 0 then
      (Except.ok none,
       { c with stats := { c.stats with missed := c.stats.missed + 1 } }, [])
    else
      let c1 := { c with stats := { c.stats with hit := c.stats.hit + 1 } }
      match lookupA c1.loaded_docs bid with
      | some batchDocs =>
        match lookupA batchDocs did with
        | some pd => (Except.ok (some pd), c1, [])
        | none => (Except.error CacheErr.docNotInBatch, c1, [])
      | none =>
        if c1.path = false then (Except.error CacheErr.noPath, c1, [])
        else if c1.vocab = false then (Except.error CacheErr.noVocab, c1, [])
        else
          match evictOldest c1 with
          | none => (Except.error CacheErr.evictEmpty, c1, [])
          | some c2 =>
            let c3 := { c2 with batch_hashes := c2.batch_hashes ++ [bid] }
            match lookupA disk.batches bid with
            | none =>
              (Except.error CacheErr.batchFileMissing, c3,
               [FsEvent.readBatch bid])
            | some bdocs =>
              let c4 := { c3 with
                           loaded_docs := updateA c3.loaded_docs bid
                             (mkDocDict bdocs) }
              match lookupA (mkDocDict bdocs) did with
              | some pd => (Except.ok (some pd), c4, [FsEvent.readBatch bid])
              | none =>
                (Except.error CacheErr.docNotInBatch, c4,
                 [FsEvent.readBatch bid])

/-! ### Operation sequences -/

/-- One public cache operation. -/
inductive Op where
  | addOp (d : Doc)
  | containsOp (d : Doc)
  | getOp (d : Doc)
deriving DecidableEq

instance {ε α : Type} [DecidableEq ε] [DecidableEq α] :
    DecidableEq (Except ε α) := fun a b =>
  match a, b with
  | Except.ok x, Except.ok y =>
    if h : x = y then isTrue (by rw [h]) else
      isFalse (by intro hc; cases hc; exact h rfl)
  | Except.error x, Except.error y =>
    if h : x = y then isTrue (by rw [h]) else
      isFalse (by intro hc; cases hc; exact h rfl)
  | Except.ok _, Except.error _ => isFalse (by intro hc; cases hc)
  | Except.error _, Except.ok _ => isFalse (by intro hc; cases hc)

/-- The caller-visible outcome of one operation. -/
inductive OpResult where
  | addedR
  | containsR (b : Bool)
  | gotR (r : Except CacheErr (Option Doc))
deriving DecidableEq

/-- Run one operation, returning the new state, the new disk, the
filesystem events performed, and the outcome. -/
def runOp (c : BatchCache) (disk : Disk) :
    Op → BatchCache × Disk × List FsEvent × OpResult
  | Op.addOp d =>
    let r := c.add disk d
    (r.1, r.2.1, r.2.2, OpResult.addedR)
  | Op.containsOp d =>
    let r := c.contains d
    (r.2, disk, [], OpResult.containsR r.1)
  | Op.getOp d =>
    let r := c.getitem disk d
    (r.2.1, disk, r.2.2, OpResult.gotR r.1)

/-- Run a sequence of operations, accumulating the events and outcomes. -/
def runOps (c : BatchCache) (disk : Disk) :
    List Op → BatchCache × Disk × List FsEvent × List OpResult
  | [] => (c, disk, [], [])
  | op :: ops =>
    let r1 := runOp c disk op
    let r2 := runOps r1.1 r1.2.1 ops
    (r2.1, r2.2.1, r1.2.2.1 ++ r2.2.2.1, r1.2.2.2 :: r2.2.2.2)

/-! ### State predicates -/

/-- Disabled mode: no cache directory was configured, and consequently the
in-memory index is empty (nothing can ever populate it without a path). -/
def Disabled (c : BatchCache) : Prop :=
  c.path = false ∧ c.doc2batch = []

instance (c : BatchCache) : Decidable (Disabled c) := by
  unfold Disabled; infer_instance

/-- Well-formedness of the resident-batch bookkeeping: the keys of
`loaded_docs` (in insertion order) are exactly `batch_hashes` (the load
order), without duplicates, and no more batches are resident than
`max_batches_in_mem`.  This holds of a fresh cache and is preserved by
every successfully returning lookup. -/
def WF (c : BatchCache) : Prop :=
  c.loaded_docs.map Prod.fst = c.batch_hashes ∧
  c.batch_hashes.Nodup ∧
  c.batch_hashes.length ≤ c.max_batches_in_mem

instance (c : BatchCache) : Decidable (WF c) := by
  unfold WF; infer_instance

/-! ### Concrete docs and states used for witnesses and counterexamples -/

/-- A doc with no tokens: its `ORTH` array is empty, so its fingerprint is
`numpy.sum([]) = 0`. -/
def emptyDoc : Doc := ⟨[]⟩

def docA : Doc := ⟨[1]⟩

def docB : Doc := ⟨[2]⟩

def docC : Doc := ⟨[3]⟩

/-! ### Arithmetic of the fingerprint functions -/

theorem foldl_add_mod (l : List Nat) (a : Nat) :
    l.foldl (fun acc x => (acc + x) % UINT64) (a % UINT64) =
      (a + l.sum) % UINT64 := by
  induction l generalizing a with
  | nil => simp
  | cons x xs ih =>
    simp only [List.foldl_cons, List.sum_cons]
    rw [Nat.mod_add_mod, ih (a + x), Nat.add_assoc]

theorem sum_map_mod (l : List Nat) :
    (l.map (· % UINT64)).sum % UINT64 = l.sum % UINT64 := by
  induction l with
  | nil => simp
  | cons x xs ih =>
    simp only [List.map_cons, List.sum_cons]
    rw [Nat.add_mod, ih, ← Nat.add_mod, Nat.mod_add_mod]

/-- `_batch_id` is the plain sum of the doc ids modulo 2^64. -/
theorem _batch_id_eq_sum_mod (doc_ids : List Nat) :
    _batch_id doc_ids = doc_ids.sum % UINT64 := by
  unfold _batch_id
  have h0 : (0 : Nat) = 0 % UINT64 := by decide
  rw [h0, foldl_add_mod, Nat.zero_add, sum_map_mod]

/-! ### C7: batch fingerprints are order-independent -/

/-- C7: for every finite list of unit fingerprints and every permutation of
it, `_batch_id` returns the same batch fingerprint: the combining function
is a 64-bit wrapping sum, which does not depend on the order of the
members. -/
theorem batch_id_perm_invariant (l l' : List Nat) (h : l.Perm l') :
    _batch_id l = _batch_id l' := by
  rw [_batch_id_eq_sum_mod, _batch_id_eq_sum_mod, h.sum_eq]

theorem batch_id_perm_invariant_witness :
    _batch_id [3, 5, 7] = _batch_id [7, 3, 5] :=
  batch_id_perm_invariant [3, 5, 7] [7, 3, 5] (by decide)

/-! ### C8: index records are appended only after the batch artifact -/

/-- C8: in every flush, the write of the batch artifact is the first
filesystem event and every append to the index file comes after it; when
the batch artifact write raises, the flush performs no index append at
all. -/
theorem persist_batch_write_precedes_index_appends
    (c : BatchCache) (disk : Disk) :
    (∃ rest, (_persist c disk).2.2 =
        FsEvent.writeBatch (_batch_id (c.cache_queue.map _doc_id)) :: rest ∧
        ∀ e ∈ rest, ∃ i,
          e = FsEvent.appendIndex i (_batch_id (c.cache_queue.map _doc_id))) ∧
    (∀ q e, e ∈ _persistFailureTrace q → ∀ i b,
        e ≠ FsEvent.appendIndex i b) := by
  constructor
  · refine ⟨_, rfl, ?_⟩
    intro e he
    rcases List.mem_map.mp he with ⟨i, _, rfl⟩
    exact ⟨i, rfl⟩
  · intro q e he i b
    rw [_persistFailureTrace, List.mem_singleton] at he
    subst he
    intro hc
    exact FsEvent.noConfusion hc

/-! ### C6: index replay, last record wins -/

theorem lookupA_foldl_record_ne (rec m : List (Nat × Nat)) (k : Nat)
    (h : ∀ p ∈ rec, p.1 ≠ k) :
    lookupA (rec.foldl (fun m' kv => updateA m' kv.1 kv.2) m) k =
      lookupA m k := by
  induction rec generalizing m with
  | nil => rfl
  | cons p rest ih =>
    simp only [List.foldl_cons]
    rw [ih _ (fun q hq => h q (List.mem_cons_of_mem p hq)),
      lookupA_updateA_ne _ _ _ _ (h p (List.mem_cons_self p rest))]

theorem lookupA_initFold_ne (post : List (List (Nat × Nat)))
    (m : List (Nat × Nat)) (k : Nat)
    (h : ∀ rec ∈ post, ∀ p ∈ rec, p.1 ≠ k) :
    lookupA
      (post.foldl
        (fun m' rec => rec.foldl (fun m'' kv => updateA m'' kv.1 kv.2) m') m)
      k = lookupA m k := by
  induction post generalizing m with
  | nil => rfl
  | cons r rs ih =>
    simp only [List.foldl_cons]
    rw [ih _ (fun rec hrec => h rec (List.mem_cons_of_mem r hrec)),
      lookupA_foldl_record_ne r m k (h r (List.mem_cons_self r rs))]

/-- C6: the in-memory map built by replaying the index file merges records
sequentially with later records overriding earlier ones, so when several
records bind the same unit fingerprint, the last (most recently appended)
record determines the batch fingerprint it maps to. -/
theorem init_cache_index_last_record_wins
    (pre post : List (List (Nat × Nat))) (k v : Nat)
    (h : ∀ rec ∈ post, ∀ p ∈ rec, p.1 ≠ k) :
    lookupA (_init_cache_index (pre ++ [(k, v)] :: post)) k = some v := by
  unfold _init_cache_index
  rw [List.foldl_append, List.foldl_cons, lookupA_initFold_ne post _ k h]
  simp [lookupA_updateA_self]

theorem init_cache_index_last_record_wins_witness :
    lookupA (_init_cache_index [[(5, 1)], [(5, 2)], [(6, 3)]]) 5 = some 2 :=
  init_cache_index_last_record_wins [[(5, 1)]] [[(6, 3)]] 5 2 (by decide)

/-! ### C5: disabled-mode `add` and the "added" statistic -/

theorem add_disabled_no_op (c : BatchCache) (disk : Disk) (doc : Doc)
    (h : c.path = false) : c.add disk doc = (c, disk, []) := by
  simp [BatchCache.add, h]

theorem addMany_disabled (c : BatchCache) (disk : Disk) (docs : List Doc)
    (h : c.path = false) : addMany c disk docs = (c, disk) := by
  induction docs with
  | nil => rfl
  | cons d ds ih =>
    rw [addMany, add_disabled_no_op c disk d h]
    exact ih

/-- C5 counterexample: a cache constructed with no backing directory does
NOT increment "added" on `add` — cache.py line 137 returns before line 141,
so after one add the counter is 0, not 1 as the claim states. -/
theorem disabled_add_not_counted :
    (BatchCache.add (BatchCache.init false 1 1 Disk.empty)
      Disk.empty docA).1.stats.added ≠ 1 := by decide

/-- C5 (amended): for every cache constructed with no backing directory,
`add` returns immediately without touching any statistic, so after every
sequence of add calls the "added" counter is still 0. -/
theorem disabled_added_stays_zero (bs mx : Nat) (disk0 disk : Disk)
    (docs : List Doc) :
    (addMany (BatchCache.init false bs mx disk0) disk docs).1.stats.added
      = 0 := by
  rw [addMany_disabled _ _ _ rfl]
  rfl

/-! ### C1: lookup hit/miss accounting versus index membership -/

/-- The cache and disk obtained by adding the token-less doc to a fresh
cache with `batch_size = 1`: the add flushes a batch whose single member
has fingerprint 0, so the batch fingerprint is also 0 and the index maps
0 to 0. -/
def c1State : BatchCache × Disk :=
  addMany (BatchCache.init true 1 1 Disk.empty) Disk.empty [emptyDoc]

/-- C1 (code bug, evaluated at the failing input): after persisting the
token-less doc, its fingerprint 0 is present in the index (and
`__contains__` reports a hit), yet `__getitem__` takes the
`if not batch_id:` branch of cache.py line 188 — `0` is falsy in Python —
increments "missed" and returns not-found, contradicting both the claim
and the code's own comment on line 187 ("Doc is not in cache."). -/
theorem lookup_zero_batch_id_miscounts :
    lookupA c1State.1.doc2batch (_doc_id emptyDoc) = some 0 ∧
    (c1State.1.contains emptyDoc).1 = true ∧
    (c1State.1.getitem c1State.2 emptyDoc).1 = Except.ok none ∧
    (c1State.1.getitem c1State.2 emptyDoc).2.1.stats.missed =
      c1State.1.stats.missed + 1 ∧
    (c1State.1.getitem c1State.2 emptyDoc).2.1.stats.hit = 0 := by decide

/-! ### C2: the write queue is bounded by `batch_size` -/

theorem add_no_flush (c : BatchCache) (disk : Disk) (doc : Doc)
    (hp : c.path = true) (hl : c.cache_queue.length + 1 ≠ c.batch_size) :
    c.add disk doc =
      ({ c with
          cache_queue := c.cache_queue ++ [doc]
          stats := { c.stats with added := c.stats.added + 1 } },
       disk, []) := by
  simp [BatchCache.add, hp, hl]

theorem add_flush (c : BatchCache) (disk : Disk) (doc : Doc)
    (hp : c.path = true) (hl : c.cache_queue.length + 1 = c.batch_size) :
    c.add disk doc =
      _persist
        { c with
            cache_queue := c.cache_queue ++ [doc]
            stats := { c.stats with added := c.stats.added + 1 } }
        disk := by
  simp [BatchCache.add, hp, hl]

theorem addMany_append (c : BatchCache) (disk : Disk) (xs ys : List Doc) :
    addMany c disk (xs ++ ys) =
      addMany (addMany c disk xs).1 (addMany c disk xs).2 ys := by
  induction xs generalizing c disk with
  | nil => rfl
  | cons d ds ih =>
    rw [List.cons_append, addMany, addMany]
    exact ih _ _

/-- A run of adds that stays strictly below the threshold only appends to
the queue and bumps "added"; nothing touches the disk. -/
theorem addMany_no_flush (docs : List Doc) (c : BatchCache) (disk : Disk)
    (hp : c.path = true)
    (hl : c.cache_queue.length + docs.length < c.batch_size) :
    addMany c disk docs =
      ({ c with
          cache_queue := c.cache_queue ++ docs
          stats := { c.stats with added := c.stats.added + docs.length } },
       disk) := by
  induction docs generalizing c with
  | nil => simp [addMany]
  | cons d ds ih =>
    rw [addMany, add_no_flush c disk d hp (by simp at hl; omega)]
    dsimp only
    refine (ih _ ?_ ?_).trans ?_
    · exact hp
    · simp at hl ⊢
      omega
    · simp [List.append_assoc]
      omega

/-- A run of adds that fills the buffer to exactly `batch_size` ends in a
synchronous flush of the whole buffer: the queue is cleared, every member's
index entry points at the new batch, the batch artifact holds the full
buffer, one index record per member is appended, and "persisted" grows by
`batch_size`. -/
theorem addMany_flush_run (docs : List Doc) (c : BatchCache) (disk : Disk)
    (hp : c.path = true)
    (hbs : c.cache_queue.length + docs.length = c.batch_size)
    (hne : docs ≠ []) :
    addMany c disk docs =
      ({ c with
          doc2batch := ((c.cache_queue ++ docs).map _doc_id).foldl
            (fun m i =>
              updateA m i (_batch_id ((c.cache_queue ++ docs).map _doc_id)))
            c.doc2batch
          cache_queue := []
          stats := { c.stats with
                      added := c.stats.added + docs.length
                      persisted := c.stats.persisted + c.batch_size } },
       { batches := updateA disk.batches
           (_batch_id ((c.cache_queue ++ docs).map _doc_id))
           (c.cache_queue ++ docs)
         index := disk.index ++ ((c.cache_queue ++ docs).map _doc_id).map
           (fun i =>
             [(i, _batch_id ((c.cache_queue ++ docs).map _doc_id))]) }) := by
  induction docs generalizing c disk with
  | nil => exact absurd rfl hne
  | cons d ds ih =>
    by_cases hds : ds = []
    · subst hds
      simp only [List.length_cons, List.length_nil] at hbs
      rw [addMany, add_flush c disk d hp (by omega), addMany]
      simp [_persist]
      omega
    · have hlt : c.cache_queue.length + 1 ≠ c.batch_size := by
        have h1 : 1 ≤ ds.length := by
          cases ds with
          | nil => exact absurd rfl hds
          | cons _ _ => simp
        simp at hbs
        omega
      rw [addMany, add_no_flush c disk d hp hlt]
      dsimp only
      refine (ih _ _ ?_ ?_ hds).trans ?_
      · exact hp
      · simp at hbs ⊢
        omega
      · simp [List.append_assoc]
        omega

theorem add_preserves_config (c : BatchCache) (disk : Disk) (doc : Doc) :
    (c.add disk doc).1.batch_size = c.batch_size ∧
    (c.add disk doc).1.path = c.path := by
  by_cases hp : c.path = false
  · simp [BatchCache.add, hp]
  · simp only [Bool.not_eq_false] at hp
    by_cases hl : c.cache_queue.length + 1 = c.batch_size
    · rw [add_flush c disk doc hp hl]
      simp [_persist, hp]
    · rw [add_no_flush c disk doc hp hl]
      simp [hp]

theorem add_queue_length_lt (c : BatchCache) (disk : Disk) (doc : Doc)
    (h1 : 1 ≤ c.batch_size) (h2 : c.cache_queue.length < c.batch_size) :
    (c.add disk doc).1.cache_queue.length < c.batch_size := by
  by_cases hp : c.path = false
  · simp [BatchCache.add, hp]
    omega
  · simp only [Bool.not_eq_false] at hp
    by_cases hl : c.cache_queue.length + 1 = c.batch_size
    · rw [add_flush c disk doc hp hl]
      simp [_persist]
      omega
    · rw [add_no_flush c disk doc hp hl]
      simp
      omega

theorem addMany_queue_length_lt (docs : List Doc) (c : BatchCache)
    (disk : Disk) (h1 : 1 ≤ c.batch_size)
    (h2 : c.cache_queue.length < c.batch_size) :
    (addMany c disk docs).1.cache_queue.length < c.batch_size := by
  induction docs generalizing c disk with
  | nil => exact h2
  | cons d ds ih =>
    rw [addMany]
    have hbseq := (add_preserves_config c disk d).1
    have hrec := ih (c.add disk d).1 (c.add disk d).2.1
      (by rw [hbseq]; exact h1)
      (by rw [hbseq]; exact add_queue_length_lt c disk d h1 h2)
    rw [hbseq] at hrec
    exact hrec

/-- C2 (amended): for every cache constructed over a backing directory with
`batch_size ≥ 1`, the write queue stays strictly below `batch_size` at the
end of every `add` call (reaching the threshold flushes the whole buffer
synchronously); after adding exactly N = batch_size units the queue is
empty, all N are persisted, one batch artifact holding all N units exists
and N index records were appended; and — provided `batch_size ≥ 2` — after
N+1 adds exactly one unit remains buffered with N persisted. -/
theorem queue_bounded_flush_at_threshold (bs mx : Nat) (disk0 disk : Disk)
    (docs : List Doc) (h1 : 1 ≤ bs) :
    ((addMany (BatchCache.init true bs mx disk0) disk docs).1.cache_queue.length
        < bs) ∧
    (docs.length = bs →
      (addMany (BatchCache.init true bs mx disk0) disk docs).1.cache_queue
          = [] ∧
      (addMany (BatchCache.init true bs mx disk0) disk
          docs).1.stats.persisted = bs ∧
      (addMany (BatchCache.init true bs mx disk0) disk docs).2.index =
        disk.index ++ (docs.map _doc_id).map
          (fun i => [(i, _batch_id (docs.map _doc_id))]) ∧
      lookupA (addMany (BatchCache.init true bs mx disk0) disk docs).2.batches
          (_batch_id (docs.map _doc_id)) = some docs) ∧
    (2 ≤ bs → docs.length = bs + 1 →
      (addMany (BatchCache.init true bs mx disk0) disk
          docs).1.cache_queue.length = 1 ∧
      (addMany (BatchCache.init true bs mx disk0) disk
          docs).1.stats.persisted = bs) := by
  refine ⟨?_, ?_, ?_⟩
  · exact addMany_queue_length_lt docs _ disk h1
      (by simp [BatchCache.init]; omega)
  · intro hlen
    have hne : docs ≠ [] := by
      intro h
      rw [h] at hlen
      simp at hlen
      omega
    have hrun := addMany_flush_run docs (BatchCache.init true bs mx disk0)
      disk rfl (by simp [BatchCache.init, hlen]) hne
    rw [hrun]
    simp [BatchCache.init, Stats.zero, lookupA_updateA_self]
  · intro h2 hlen
    have hsplit := (List.take_append_drop bs docs).symm
    rw [hsplit, addMany_append]
    have htake : (docs.take bs).length = bs := by
      rw [List.length_take]
      omega
    have hne : docs.take bs ≠ [] := by
      intro h
      rw [h] at htake
      simp at htake
      omega
    have hrun := addMany_flush_run (docs.take bs)
      (BatchCache.init true bs mx disk0) disk rfl
      (by simp [BatchCache.init, htake]) hne
    rw [hrun]
    have hdrop : (docs.drop bs).length = 1 := by
      rw [List.length_drop]
      omega
    obtain ⟨y, t, hy⟩ : ∃ y t, docs.drop bs = y :: t := by
      cases hdd : docs.drop bs with
      | nil =>
        rw [hdd] at hdrop
        simp at hdrop
      | cons y t => exact ⟨y, t, rfl⟩
    have ht : t = [] := by
      rw [hy] at hdrop
      simp at hdrop
      exact hdrop
    subst ht
    rw [hy, addMany, add_no_flush _ _ _ rfl (by simp [BatchCache.init]; omega)]
    dsimp only
    rw [addMany]
    simp [BatchCache.init, Stats.zero]

theorem queue_bounded_flush_at_threshold_witness :
    (addMany (BatchCache.init true 2 1 Disk.empty) Disk.empty
      [docA, docB]).1.cache_queue.length < 2 :=
  (queue_bounded_flush_at_threshold 2 1 Disk.empty Disk.empty [docA, docB]
    (by decide)).1

/-- C2 counterexample: the claim quantifies over every cache with a backing
directory, but with `batch_size = 0` the threshold `len(queue) ==
batch_size` is never reached (the length is ≥ 1 right after the append),
so after one add the queue holds one unit and exceeds `batch_size`; and
with `batch_size = 1` (N = 1), after N + 1 = 2 adds every add flushed
immediately, so zero units remain buffered, not one. -/
theorem queue_bound_counterexample :
    ((BatchCache.add (BatchCache.init true 0 1 Disk.empty) Disk.empty
        docA).1.cache_queue.length >
      (BatchCache.init true 0 1 Disk.empty).batch_size) ∧
    (addMany (BatchCache.init true 1 1 Disk.empty) Disk.empty
        [docA, docB]).1.cache_queue.length ≠ 1 := by
  decide

/-! ### Branch characterizations of `__getitem__` -/

theorem evictOldest_not_full (c : BatchCache)
    (h : c.loaded_docs.length ≠ c.max_batches_in_mem) :
    evictOldest c = some c := by
  simp [evictOldest, h]

theorem evictOldest_full (c : BatchCache) (hd : Nat) (tl : List Nat)
    (hl : c.loaded_docs.length = c.max_batches_in_mem)
    (hbh : c.batch_hashes = hd :: tl) :
    evictOldest c =
      some { c with
              loaded_docs := removeA c.loaded_docs hd
              batch_hashes := tl } := by
  simp [evictOldest, hl, hbh]

theorem evictOldest_empty (c : BatchCache)
    (hl : c.loaded_docs.length = c.max_batches_in_mem)
    (hbh : c.batch_hashes = []) : evictOldest c = none := by
  simp [evictOldest, hl, hbh]

theorem getitem_miss_none (c : BatchCache) (disk : Disk) (doc : Doc)
    (hb : lookupA c.doc2batch (_doc_id doc) = none) :
    c.getitem disk doc =
      (Except.ok none,
       { c with stats := { c.stats with missed := c.stats.missed + 1 } },
       []) := by
  simp [BatchCache.getitem, hb]

/-- The `if not batch_id:` branch taken at a present-but-zero batch id. -/
theorem getitem_miss_zero (c : BatchCache) (disk : Disk) (doc : Doc)
    (hb : lookupA c.doc2batch (_doc_id doc) = some 0) :
    c.getitem disk doc =
      (Except.ok none,
       { c with stats := { c.stats with missed := c.stats.missed + 1 } },
       []) := by
  simp [BatchCache.getitem, hb]

theorem getitem_resident (c : BatchCache) (disk : Disk) (doc : Doc)
    (b : Nat) (bdocs : List (Nat × Doc))
    (hb : lookupA c.doc2batch (_doc_id doc) = some b) (hnz : b ≠ 0)
    (hres : lookupA c.loaded_docs b = some bdocs) :
    (c.getitem disk doc).2 =
      ({ c with stats := { c.stats with hit := c.stats.hit + 1 } }, []) := by
  simp only [BatchCache.getitem, hb, hnz, if_false, ite_false, hres]
  split <;> rfl

theorem getitem_nopath (c : BatchCache) (disk : Disk) (doc : Doc) (b : Nat)
    (hb : lookupA c.doc2batch (_doc_id doc) = some b) (hnz : b ≠ 0)
    (hnr : lookupA c.loaded_docs b = none) (hp : c.path = false) :
    c.getitem disk doc =
      (Except.error CacheErr.noPath,
       { c with stats := { c.stats with hit := c.stats.hit + 1 } }, []) := by
  simp [BatchCache.getitem, hb, hnz, hnr, hp]

theorem getitem_novocab (c : BatchCache) (disk : Disk) (doc : Doc) (b : Nat)
    (hb : lookupA c.doc2batch (_doc_id doc) = some b) (hnz : b ≠ 0)
    (hnr : lookupA c.loaded_docs b = none) (hp : c.path = true)
    (hv : c.vocab = false) :
    c.getitem disk doc =
      (Except.error CacheErr.noVocab,
       { c with stats := { c.stats with hit := c.stats.hit + 1 } }, []) := by
  simp [BatchCache.getitem, hb, hnz, hnr, hp, hv]

theorem getitem_evict_fail (c : BatchCache) (disk : Disk) (doc : Doc)
    (b : Nat)
    (hb : lookupA c.doc2batch (_doc_id doc) = some b) (hnz : b ≠ 0)
    (hnr : lookupA c.loaded_docs b = none) (hp : c.path = true)
    (hv : c.vocab = true)
    (hl : c.loaded_docs.length = c.max_batches_in_mem)
    (hbh : c.batch_hashes = []) :
    c.getitem disk doc =
      (Except.error CacheErr.evictEmpty,
       { c with stats := { c.stats with hit := c.stats.hit + 1 } }, []) := by
  simp [BatchCache.getitem, hb, hnz, hnr, hp, hv]
  rw [evictOldest_empty]
  · exact hl
  · exact hbh

theorem getitem_load_notfull (c : BatchCache) (disk : Disk) (doc : Doc)
    (b : Nat) (bdocs : List Doc)
    (hb : lookupA c.doc2batch (_doc_id doc) = some b) (hnz : b ≠ 0)
    (hnr : lookupA c.loaded_docs b = none) (hp : c.path = true)
    (hv : c.vocab = true)
    (hnf : c.loaded_docs.length ≠ c.max_batches_in_mem)
    (hdisk : lookupA disk.batches b = some bdocs) :
    c.getitem disk doc =
      ((match lookupA (mkDocDict bdocs) (_doc_id doc) with
        | some pd => Except.ok (some pd)
        | none => Except.error CacheErr.docNotInBatch),
       { c with
          stats := { c.stats with hit := c.stats.hit + 1 }
          batch_hashes := c.batch_hashes ++ [b]
          loaded_docs := updateA c.loaded_docs b (mkDocDict bdocs) },
       [FsEvent.readBatch b]) := by
  simp [BatchCache.getitem, hb, hnz, hnr, hp, hv]
  rw [evictOldest_not_full]
  · simp [hdisk]
    split <;> rfl
  · exact hnf

theorem getitem_load_fail_notfull (c : BatchCache) (disk : Disk) (doc : Doc)
    (b : Nat)
    (hb : lookupA c.doc2batch (_doc_id doc) = some b) (hnz : b ≠ 0)
    (hnr : lookupA c.loaded_docs b = none) (hp : c.path = true)
    (hv : c.vocab = true)
    (hnf : c.loaded_docs.length ≠ c.max_batches_in_mem)
    (hdisk : lookupA disk.batches b = none) :
    c.getitem disk doc =
      (Except.error CacheErr.batchFileMissing,
       { c with
          stats := { c.stats with hit := c.stats.hit + 1 }
          batch_hashes := c.batch_hashes ++ [b] },
       [FsEvent.readBatch b]) := by
  simp [BatchCache.getitem, hb, hnz, hnr, hp, hv]
  rw [evictOldest_not_full]
  · simp [hdisk]
  · exact hnf

theorem getitem_load_full (c : BatchCache) (disk : Disk) (doc : Doc)
    (b hd : Nat) (tl : List Nat) (bdocs : List Doc)
    (hb : lookupA c.doc2batch (_doc_id doc) = some b) (hnz : b ≠ 0)
    (hnr : lookupA c.loaded_docs b = none) (hp : c.path = true)
    (hv : c.vocab = true)
    (hl : c.loaded_docs.length = c.max_batches_in_mem)
    (hbh : c.batch_hashes = hd :: tl)
    (hdisk : lookupA disk.batches b = some bdocs) :
    c.getitem disk doc =
      ((match lookupA (mkDocDict bdocs) (_doc_id doc) with
        | some pd => Except.ok (some pd)
        | none => Except.error CacheErr.docNotInBatch),
       { c with
          stats := { c.stats with hit := c.stats.hit + 1 }
          batch_hashes := tl ++ [b]
          loaded_docs := updateA (removeA c.loaded_docs hd) b
            (mkDocDict bdocs) },
       [FsEvent.readBatch b]) := by
  simp [BatchCache.getitem, hb, hnz, hnr, hp, hv]
  rw [evictOldest_full _ hd tl]
  · simp [hdisk]
    split <;> rfl
  · exact hl
  · exact hbh

theorem getitem_load_fail_full (c : BatchCache) (disk : Disk) (doc : Doc)
    (b hd : Nat) (tl : List Nat)
    (hb : lookupA c.doc2batch (_doc_id doc) = some b) (hnz : b ≠ 0)
    (hnr : lookupA c.loaded_docs b = none) (hp : c.path = true)
    (hv : c.vocab = true)
    (hl : c.loaded_docs.length = c.max_batches_in_mem)
    (hbh : c.batch_hashes = hd :: tl)
    (hdisk : lookupA disk.batches b = none) :
    c.getitem disk doc =
      (Except.error CacheErr.batchFileMissing,
       { c with
          stats := { c.stats with hit := c.stats.hit + 1 }
          batch_hashes := tl ++ [b]
          loaded_docs := removeA c.loaded_docs hd },
       [FsEvent.readBatch b]) := by
  simp [BatchCache.getitem, hb, hnz, hnr, hp, hv]
  rw [evictOldest_full _ hd tl]
  · simp [hdisk]
  · exact hl
  · exact hbh

/-! ### C3: bounded residency and FIFO eviction -/

theorem removeA_length_le {α : Type} (m : List (Nat × α)) (k : Nat) :
    (removeA m k).length ≤ m.length := by
  induction m with
  | nil => simp [removeA]
  | cons p rest ih =>
    obtain ⟨k', v'⟩ := p
    by_cases h : k' = k
    · simp [removeA, h]
    · simp [removeA, h]
      omega

theorem nodup_append_singleton (l : List Nat) (b : Nat)
    (h1 : l.Nodup) (h2 : b ∉ l) : (l ++ [b]).Nodup := by
  rw [List.nodup_append]
  refine ⟨h1, List.nodup_singleton b, ?_⟩
  intro a ha hb
  simp at hb
  subst hb
  exact h2 ha

/-- The state after a lookup that loads a batch while the cache is at
capacity: the FIFO head `hd` is evicted, the load order becomes
`tl ++ [b]`, the residents are exactly `tl ++ [b]`, and well-formedness is
preserved. -/
theorem getitem_load_full_state (c : BatchCache) (disk : Disk) (doc : Doc)
    (b hd : Nat) (tl : List Nat) (bdocs : List Doc)
    (hwf : WF c)
    (hb : lookupA c.doc2batch (_doc_id doc) = some b) (hnz : b ≠ 0)
    (hnr : lookupA c.loaded_docs b = none) (hp : c.path = true)
    (hv : c.vocab = true)
    (hl : c.loaded_docs.length = c.max_batches_in_mem)
    (hbh : c.batch_hashes = hd :: tl)
    (hdisk : lookupA disk.batches b = some bdocs) :
    (c.getitem disk doc).2.1.batch_hashes = tl ++ [b] ∧
    (c.getitem disk doc).2.1.loaded_docs.map Prod.fst = tl ++ [b] ∧
    lookupA (c.getitem disk doc).2.1.loaded_docs hd = none ∧
    (c.getitem disk doc).2.1.loaded_docs.length ≤ c.max_batches_in_mem ∧
    WF (c.getitem disk doc).2.1 := by
  obtain ⟨hwf1, hwf2, hwf3⟩ := hwf
  have hbk : b ∉ c.batch_hashes := by
    rw [← hwf1]
    exact (lookupA_eq_none_iff _ _).mp hnr
  rw [hbh] at hbk
  have hbhd : b ≠ hd := by
    intro h
    exact hbk (h ▸ List.mem_cons_self hd tl)
  have hbtl : b ∉ tl := fun h => hbk (List.mem_cons_of_mem hd h)
  have hhdtl : hd ∉ tl := by
    rw [hbh, List.nodup_cons] at hwf2
    exact hwf2.1
  have htln : tl.Nodup := by
    rw [hbh, List.nodup_cons] at hwf2
    exact hwf2.2
  have hmax : tl.length + 1 = c.max_batches_in_mem := by
    have := congrArg List.length hwf1
    rw [List.length_map, hbh, hl] at this
    simpa using this.symm
  cases hld : c.loaded_docs with
  | nil =>
    rw [hld, List.map_nil, hbh] at hwf1
    exact absurd hwf1 (by simp)
  | cons p rest =>
    obtain ⟨k, x⟩ := p
    have hkd : k = hd ∧ List.map Prod.fst rest = tl := by
      rw [hld, hbh] at hwf1
      simp only [List.map_cons, List.cons.injEq] at hwf1
      exact hwf1
    obtain ⟨hk1, hk2⟩ := hkd
    subst hk1
    have hrb : lookupA rest b = none := by
      rw [lookupA_eq_none_iff, hk2]
      exact hbtl
    rw [getitem_load_full c disk doc b k tl bdocs hb hnz hnr hp hv hl hbh
      hdisk]
    dsimp only
    rw [hld, removeA_head]
    have hmap : (updateA rest b (mkDocDict bdocs)).map Prod.fst
        = tl ++ [b] := by
      rw [map_fst_updateA_fresh rest b _ hrb, hk2]
    refine ⟨rfl, hmap, ?_, ?_, ?_⟩
    · rw [lookupA_updateA_ne rest b k _ hbhd]
      rw [lookupA_eq_none_iff, hk2]
      exact hhdtl
    · have := congrArg List.length hmap
      rw [List.length_map] at this
      simp at this
      omega
    · refine ⟨hmap, nodup_append_singleton tl b htln hbtl, ?_⟩
      simp
      omega

/-- The state after a lookup that loads a batch while the cache is below
capacity: no eviction, the new batch is appended to the load order, and
well-formedness is preserved. -/
theorem getitem_load_notfull_state (c : BatchCache) (disk : Disk) (doc : Doc)
    (b : Nat) (bdocs : List Doc)
    (hwf : WF c)
    (hb : lookupA c.doc2batch (_doc_id doc) = some b) (hnz : b ≠ 0)
    (hnr : lookupA c.loaded_docs b = none) (hp : c.path = true)
    (hv : c.vocab = true)
    (hnf : c.loaded_docs.length ≠ c.max_batches_in_mem)
    (hdisk : lookupA disk.batches b = some bdocs) :
    (c.getitem disk doc).2.1.batch_hashes = c.batch_hashes ++ [b] ∧
    (c.getitem disk doc).2.1.loaded_docs.length ≤ c.max_batches_in_mem ∧
    WF (c.getitem disk doc).2.1 := by
  obtain ⟨hwf1, hwf2, hwf3⟩ := hwf
  have hbk : b ∉ c.batch_hashes := by
    rw [← hwf1]
    exact (lookupA_eq_none_iff _ _).mp hnr
  have hlen : c.loaded_docs.length = c.batch_hashes.length := by
    rw [← hwf1, List.length_map]
  rw [getitem_load_notfull c disk doc b bdocs hb hnz hnr hp hv hnf hdisk]
  dsimp only
  have hmap : (updateA c.loaded_docs b (mkDocDict bdocs)).map Prod.fst
      = c.batch_hashes ++ [b] := by
    rw [map_fst_updateA_fresh _ b _ hnr, hwf1]
  refine ⟨rfl, ?_, ?_⟩
  · have := congrArg List.length hmap
    rw [List.length_map] at this
    simp at this
    omega
  · refine ⟨hmap, nodup_append_singleton _ b hwf2 hbk, ?_⟩
    simp
    omega

/-- C3: starting from a well-formed cache, the number of resident batches
after any lookup never exceeds `max_batches_in_mem` (and well-formedness is
preserved by every lookup that returns without raising); moreover, when a
lookup must load a non-resident batch while the resident count equals
`max_batches_in_mem`, the batch evicted is exactly the earliest-loaded
resident (the head of the load-order list): afterwards the load order is
`tl ++ [b]`, the residents are exactly `tl ++ [b]`, and the old head is no
longer resident — strict FIFO, independent of access recency. -/
theorem resident_bound_fifo_eviction (c : BatchCache) (disk : Disk)
    (doc : Doc) (hwf : WF c) :
    ((c.getitem disk doc).2.1.loaded_docs.length ≤ c.max_batches_in_mem) ∧
    ((∃ v, (c.getitem disk doc).1 = Except.ok v) →
      WF (c.getitem disk doc).2.1) ∧
    (∀ b hd tl bdocs,
      lookupA c.doc2batch (_doc_id doc) = some b → b ≠ 0 →
      lookupA c.loaded_docs b = none →
      c.path = true → c.vocab = true →
      c.loaded_docs.length = c.max_batches_in_mem →
      c.batch_hashes = hd :: tl →
      lookupA disk.batches b = some bdocs →
      (c.getitem disk doc).2.1.batch_hashes = tl ++ [b] ∧
      (c.getitem disk doc).2.1.loaded_docs.map Prod.fst = tl ++ [b] ∧
      lookupA (c.getitem disk doc).2.1.loaded_docs hd = none) := by
  have hlen : c.loaded_docs.length = c.batch_hashes.length := by
    rw [← hwf.1, List.length_map]
  have hbound : c.loaded_docs.length ≤ c.max_batches_in_mem := by
    rw [hlen]
    exact hwf.2.2
  refine ⟨?_, ?_, ?_⟩
  case refine_3 =>
    intro b hd tl bdocs hb hnz hnr hp hv hfull hbh hdisk
    have hs := getitem_load_full_state c disk doc b hd tl bdocs hwf hb hnz
      hnr hp hv hfull hbh hdisk
    exact ⟨hs.1, hs.2.1, hs.2.2.1⟩
  all_goals
    cases hb : lookupA c.doc2batch (_doc_id doc) with
    | none =>
      rw [getitem_miss_none c disk doc hb]
      first
      | exact hbound
      | exact fun _ => hwf
    | some b =>
      by_cases hz : b = 0
      · subst hz
        rw [getitem_miss_zero c disk doc hb]
        first
        | exact hbound
        | exact fun _ => hwf
      · cases hnr : lookupA c.loaded_docs b with
        | some bdocs =>
          have h2 := getitem_resident c disk doc b bdocs hb hz hnr
          have h21 : (c.getitem disk doc).2.1 =
              { c with stats := { c.stats with hit := c.stats.hit + 1 } } := by
            rw [h2]
          rw [h21]
          first
          | exact hbound
          | exact fun _ => hwf
        | none =>
          by_cases hp : c.path = false
          · rw [getitem_nopath c disk doc b hb hz hnr hp]
            first
            | exact hbound
            | exact fun h => absurd h.choose_spec (by simp)
          · have hp' : c.path = true := by
              simpa using hp
            by_cases hvf : c.vocab = false
            · rw [getitem_novocab c disk doc b hb hz hnr hp' hvf]
              first
              | exact hbound
              | exact fun h => absurd h.choose_spec (by simp)
            · have hv' : c.vocab = true := by
                simpa using hvf
              by_cases hfull : c.loaded_docs.length = c.max_batches_in_mem
              · cases hbh : c.batch_hashes with
                | nil =>
                  rw [getitem_evict_fail c disk doc b hb hz hnr hp' hv'
                    hfull hbh]
                  first
                  | exact hbound
                  | exact fun h => absurd h.choose_spec (by simp)
                | cons hd tl =>
                  cases hdisk : lookupA disk.batches b with
                  | none =>
                    rw [getitem_load_fail_full c disk doc b hd tl hb hz hnr
                      hp' hv' hfull hbh hdisk]
                    first
                    | exact le_trans (removeA_length_le _ _) hbound
                    | exact fun h => absurd h.choose_spec (by simp)
                  | some bdocs =>
                    have hs := getitem_load_full_state c disk doc b hd tl
                      bdocs hwf hb hz hnr hp' hv' hfull hbh hdisk
                    first
                    | exact hs.2.2.2.1
                    | exact fun _ => hs.2.2.2.2
              · cases hdisk : lookupA disk.batches b with
                | none =>
                  rw [getitem_load_fail_notfull c disk doc b hb hz hnr hp'
                    hv' hfull hdisk]
                  first
                  | exact hbound
                  | exact fun h => absurd h.choose_spec (by simp)
                | some bdocs =>
                  have hs := getitem_load_notfull_state c disk doc b bdocs
                    hwf hb hz hnr hp' hv' hfull hdisk
                  first
                  | exact hs.2.1
                  | exact fun _ => hs.2.2

/-- A concrete well-formed cache at capacity (one resident batch, hash 3)
with a non-resident batch (hash 7) indexed for the doc with ORTH [5]. -/
def fullCache : BatchCache :=
  { path := true, batch_size := 2, max_batches_in_mem := 1, vocab := true,
    doc2batch := [(5, 7)], batch_hashes := [3], loaded_docs := [(3, [])],
    cache_queue := [], stats := Stats.zero }

/-- The disk holding the artifact of batch 7, containing the doc [5]. -/
def fullDisk : Disk := { batches := [(7, [⟨[5]⟩])], index := [] }

theorem resident_bound_fifo_eviction_witness :
    (BatchCache.getitem fullCache fullDisk ⟨[5]⟩).2.1.loaded_docs.length ≤
      fullCache.max_batches_in_mem :=
  (resident_bound_fifo_eviction fullCache fullDisk ⟨[5]⟩ (by decide)).1

/-! ### C9: configuration errors on non-resident lookups -/

/-- C9 (amended): for every lookup of a unit whose fingerprint is present
in the index with a *nonzero* batch fingerprint and whose owning batch is
not resident: the lookup raises the missing-directory configuration error
when the cache has no backing directory; raises the missing-vocab
configuration error when a directory is configured but no vocabulary was
ever supplied; and only when both are present does it proceed to read the
batch artifact from disk and return the unit found in it — both below
capacity and at capacity (where a resident batch is evicted first). -/
theorem lookup_nonresident_config_errors (c : BatchCache) (disk : Disk)
    (doc : Doc) (b : Nat)
    (hb : lookupA c.doc2batch (_doc_id doc) = some b) (hnz : b ≠ 0)
    (hnr : lookupA c.loaded_docs b = none) :
    (c.path = false →
      (c.getitem disk doc).1 = Except.error CacheErr.noPath) ∧
    (c.path = true → c.vocab = false →
      (c.getitem disk doc).1 = Except.error CacheErr.noVocab) ∧
    (c.path = true → c.vocab = true →
      c.loaded_docs.length ≠ c.max_batches_in_mem →
      ∀ bdocs, lookupA disk.batches b = some bdocs →
        (c.getitem disk doc).2.2 = [FsEvent.readBatch b] ∧
        ∀ pd, lookupA (mkDocDict bdocs) (_doc_id doc) = some pd →
          (c.getitem disk doc).1 = Except.ok (some pd)) ∧
    (c.path = true → c.vocab = true →
      c.loaded_docs.length = c.max_batches_in_mem →
      ∀ hd tl, c.batch_hashes = hd :: tl →
      ∀ bdocs, lookupA disk.batches b = some bdocs →
        (c.getitem disk doc).2.2 = [FsEvent.readBatch b] ∧
        ∀ pd, lookupA (mkDocDict bdocs) (_doc_id doc) = some pd →
          (c.getitem disk doc).1 = Except.ok (some pd)) := by
  refine ⟨?_, ?_, ?_, ?_⟩
  · intro hp
    rw [getitem_nopath c disk doc b hb hnz hnr hp]
  · intro hp hv
    rw [getitem_novocab c disk doc b hb hnz hnr hp hv]
  · intro hp hv hnf bdocs hdisk
    rw [getitem_load_notfull c disk doc b bdocs hb hnz hnr hp hv hnf hdisk]
    refine ⟨rfl, ?_⟩
    intro pd hpd
    dsimp only
    rw [hpd]
  · intro hp hv hfull hd tl hbh bdocs hdisk
    rw [getitem_load_full c disk doc b hd tl bdocs hb hnz hnr hp hv hfull
      hbh hdisk]
    refine ⟨rfl, ?_⟩
    intro pd hpd
    dsimp only
    rw [hpd]

/-- A cache with a directory, a non-resident indexed batch (fingerprint 7
for the doc [5]) and no vocabulary supplied. -/
def noVocabCache : BatchCache :=
  { path := true, batch_size := 2, max_batches_in_mem := 2, vocab := false,
    doc2batch := [(5, 7)], batch_hashes := [], loaded_docs := [],
    cache_queue := [], stats := Stats.zero }

theorem lookup_nonresident_config_errors_witness :
    (BatchCache.getitem noVocabCache Disk.empty ⟨[5]⟩).1 =
      Except.error CacheErr.noVocab :=
  (lookup_nonresident_config_errors noVocabCache Disk.empty ⟨[5]⟩ 7
    (by decide) (by decide) (by decide)).2.1 rfl rfl

/-- The cache and disk obtained by persisting the token-less doc (with a
fresh cache, batch_size = 1, no vocab ever set): the index maps
fingerprint 0 to batch fingerprint 0 and nothing is resident. -/
def zeroIdxState : BatchCache × Disk :=
  addMany (BatchCache.init true 1 5 Disk.empty) Disk.empty [emptyDoc]

/-- C9 counterexample: the empty doc's fingerprint is present in the index
(mapped to batch fingerprint 0), its batch is not resident, and no
vocabulary was ever supplied — by the claim this lookup must raise a
configuration error, but the code takes the falsy `if not batch_id:`
branch (cache.py line 188) and returns not-found without raising. -/
theorem lookup_nonresident_no_error_at_zero :
    lookupA zeroIdxState.1.doc2batch (_doc_id emptyDoc) = some 0 ∧
    lookupA zeroIdxState.1.loaded_docs 0 = none ∧
    zeroIdxState.1.vocab = false ∧
    (zeroIdxState.1.getitem zeroIdxState.2 emptyDoc).1 = Except.ok none := by
  decide

/-! ### C10: a failing lookup still bumps the "hit" statistic -/

/-- C10: when a lookup finds the unit's fingerprint in the index (with a
nonzero batch fingerprint, so the hit branch is taken) for a non-resident
batch and then raises a configuration error — missing directory or missing
vocabulary — the "hit" statistic was already incremented before the raise
and is not rolled back: the error path is not atomic with respect to the
statistics. -/
theorem failing_lookup_still_counts_hit (c : BatchCache) (disk : Disk)
    (doc : Doc) (b : Nat)
    (hb : lookupA c.doc2batch (_doc_id doc) = some b) (hnz : b ≠ 0)
    (hnr : lookupA c.loaded_docs b = none)
    (herr : c.path = false ∨ c.vocab = false) :
    ((c.getitem disk doc).1 = Except.error CacheErr.noPath ∨
     (c.getitem disk doc).1 = Except.error CacheErr.noVocab) ∧
    (c.getitem disk doc).2.1.stats.hit = c.stats.hit + 1 := by
  rcases herr with hp | hv
  · rw [getitem_nopath c disk doc b hb hnz hnr hp]
    exact ⟨Or.inl rfl, rfl⟩
  · by_cases hp : c.path = false
    · rw [getitem_nopath c disk doc b hb hnz hnr hp]
      exact ⟨Or.inl rfl, rfl⟩
    · have hp' : c.path = true := by simpa using hp
      rw [getitem_novocab c disk doc b hb hnz hnr hp' hv]
      exact ⟨Or.inr rfl, rfl⟩

theorem failing_lookup_still_counts_hit_witness :
    (BatchCache.getitem noVocabCache Disk.empty ⟨[5]⟩).2.1.stats.hit =
      noVocabCache.stats.hit + 1 :=
  (failing_lookup_still_counts_hit noVocabCache Disk.empty ⟨[5]⟩ 7
    (by decide) (by decide) (by decide) (Or.inr rfl)).2

/-! ### C4: disabled mode is a pure no-op -/

theorem runOp_disabled (c : BatchCache) (disk : Disk) (op : Op)
    (h : Disabled c) :
    (runOp c disk op).2.1 = disk ∧
    (runOp c disk op).2.2.1 = [] ∧
    Disabled (runOp c disk op).1 ∧
    (runOp c disk op).1.stats.hit = c.stats.hit ∧
    (runOp c disk op).1.stats.hit_contains = c.stats.hit_contains ∧
    ((runOp c disk op).2.2.2 = OpResult.addedR ∨
     (runOp c disk op).2.2.2 = OpResult.containsR false ∨
     (runOp c disk op).2.2.2 = OpResult.gotR (Except.ok none)) := by
  obtain ⟨hp, hd⟩ := h
  cases op with
  | addOp d =>
    rw [runOp, add_disabled_no_op c disk d hp]
    exact ⟨rfl, rfl, ⟨hp, hd⟩, rfl, rfl, Or.inl rfl⟩
  | containsOp d =>
    rw [runOp]
    have hc : c.contains d =
        (false, { c with stats := { c.stats with
          missed_contains := c.stats.missed_contains + 1 } }) := by
      simp [BatchCache.contains, hd]
    rw [hc]
    exact ⟨rfl, rfl, ⟨hp, hd⟩, rfl, rfl, Or.inr (Or.inl rfl)⟩
  | getOp d =>
    rw [runOp]
    have hg : c.getitem disk d =
        (Except.ok none, { c with stats := { c.stats with
          missed := c.stats.missed + 1 } }, []) :=
      getitem_miss_none c disk d (by rw [hd]; rfl)
    rw [hg]
    exact ⟨rfl, rfl, ⟨hp, hd⟩, rfl, rfl, Or.inr (Or.inr rfl)⟩

theorem runOps_disabled (ops : List Op) (c : BatchCache) (disk : Disk)
    (h : Disabled c) :
    (runOps c disk ops).2.1 = disk ∧
    (runOps c disk ops).2.2.1 = [] ∧
    (runOps c disk ops).1.stats.hit = c.stats.hit ∧
    (runOps c disk ops).1.stats.hit_contains = c.stats.hit_contains ∧
    ∀ r ∈ (runOps c disk ops).2.2.2,
      r = OpResult.addedR ∨ r = OpResult.containsR false ∨
      r = OpResult.gotR (Except.ok none) := by
  induction ops generalizing c disk with
  | nil =>
    refine ⟨rfl, rfl, rfl, rfl, ?_⟩
    intro r hr
    simp [runOps] at hr
  | cons op ops ih =>
    obtain ⟨hd1, ht1, hdis1, hh1, hhc1, hres1⟩ := runOp_disabled c disk op h
    obtain ⟨hd2, ht2, hh2, hhc2, hres2⟩ :=
      ih (runOp c disk op).1 (runOp c disk op).2.1 hdis1
    rw [runOps]
    dsimp only
    refine ⟨?_, ?_, ?_, ?_, ?_⟩
    · rw [hd2, hd1]
    · rw [ht1, ht2]
      rfl
    · rw [hh2, hh1]
    · rw [hhc2, hhc1]
    · intro r hr
      rcases List.mem_cons.mp hr with h0 | h0
      · rw [h0]
        exact hres1
      · exact hres2 r h0

/-- C4: a cache constructed with no backing directory degrades to a pure
no-op over every sequence of add / contains / lookup operations on
arbitrary units: no filesystem access ever occurs (the event trace is
empty and the disk is unchanged), every contains returns false, every
lookup returns not-found, no operation raises an exception, and the "hit"
and "hit_contains" statistics stay 0 forever. -/
theorem disabled_mode_no_op (bs mx : Nat) (disk0 disk : Disk)
    (ops : List Op) :
    (runOps (BatchCache.init false bs mx disk0) disk ops).2.1 = disk ∧
    (runOps (BatchCache.init false bs mx disk0) disk ops).2.2.1 = [] ∧
    (runOps (BatchCache.init false bs mx disk0) disk ops).1.stats.hit = 0 ∧
    (runOps (BatchCache.init false bs mx disk0) disk
        ops).1.stats.hit_contains = 0 ∧
    ∀ r ∈ (runOps (BatchCache.init false bs mx disk0) disk ops).2.2.2,
      r = OpResult.addedR ∨ r = OpResult.containsR false ∨
      r = OpResult.gotR (Except.ok none) :=
  runOps_disabled ops (BatchCache.init false bs mx disk0) disk ⟨rfl, rfl⟩

end SpacyLLM
